import Mathlib

/-!
Verification development for the layout-fitting and text-composition engine
of `autopost.py`: a script that parses horse-racing statistics, composes
per-meeting social-media posts (title + sections of heading/body lines),
wraps and measures text, picks font sizes so the content fits a fixed
1080 by 1080 canvas, and draws the result.

Python strings are embedded as `List Char` (for the character-level text
utilities) or `String` (for the line-composition layer).  Fonts are embedded
abstractly as a pixel-width function together with a fixed line height,
since the code only ever uses a font through `text_width` (a call to
`draw.textbbox`) and `font.getbbox("Ag")[3]`.
-/

/-- Whitespace test used by Python's `str.split()` with no arguments
(ASCII whitespace; the unicode extras are irrelevant to the inputs here). -/
def pyIsSpace (c : Char) : Bool :=
  c = '\x20' || c = '\t' || c = '\n' || c = '\r' || c = '\x0b' || c = '\x0c'

/-- Python's `text.split()`: split on runs of whitespace, dropping empty
chunks.  Used by `wrap_text` (line 246 of `autopost.py`). -/
def splitWs (cs : List Char) : List (List Char) :=
  match cs with
  | [] => []
  | c :: rest =>
    if pyIsSpace c then splitWs rest
    else (c :: rest.takeWhile (fun x => !pyIsSpace x)) ::
      splitWs (rest.dropWhile (fun x => !pyIsSpace x))
termination_by cs.length
decreasing_by
  · simp
  · have h : (rest.dropWhile (fun x => !pyIsSpace x)).Sublist rest :=
      List.dropWhile_sublist _
    have := h.length_le
    simp
    omega

/-- Structural (fuel-indexed) evaluator for `splitWs`; the fuel only has
to dominate the character count, so `splitWsGo cs.length cs` computes the
same split by ordinary structural recursion. -/
def splitWsGo : Nat → List Char → List (List Char)
  | _, [] => []
  | 0, _ => []
  | fuel + 1, c :: rest =>
    if pyIsSpace c then splitWsGo fuel rest
    else (c :: rest.takeWhile (fun x => !pyIsSpace x)) ::
      splitWsGo fuel (rest.dropWhile (fun x => !pyIsSpace x))

/-- Executable form of `splitWs` (proved equal to it in `pySplit_eq`). -/
def pySplit (cs : List Char) : List (List Char) :=
  splitWsGo cs.length cs

/-- Joining a list of lines with single spaces (the reading of the wrapped
lines used by the word-preservation property). -/
def joinSp : List (List Char) → List Char
  | [] => []
  | [l] => l
  | l :: ls => l ++ '\x20' :: joinSp ls

/-- `text_width` (autopost.py lines 235-239): zero for the empty string,
otherwise the rendered pixel width of the text in the given font.  The
font's measurement is abstracted as `rw`. -/
def text_width (rw : List Char → Nat) (t : List Char) : Nat :=
  if t = [] then 0 else rw t

/-- Greedy accumulation loop of `wrap_text` (autopost.py lines 250-258):
`current` starts as the first word; each next word is appended to a test
line, which is kept when it still measures within `max_width`, and
otherwise the current line is closed and the word starts a new line. -/
def wrapAux (rw : List Char → Nat) (maxW : Nat) (current : List Char) :
    List (List Char) → List (List Char)
  | [] => [current]
  | w :: ws =>
    let test := current ++ '\x20' :: w
    if text_width rw test ≤ maxW then wrapAux rw maxW test ws
    else current :: wrapAux rw maxW w ws

/-- `wrap_text` (autopost.py lines 242-259): word-wrap `text` so lines do
not exceed `maxW` in measured width; whitespace-only input yields the
single empty line. -/
def wrap_text (rw : List Char → Nat) (text : List Char) (maxW : Nat) :
    List (List Char) :=
  match pySplit text with
  | [] => [[]]
  | w :: ws => wrapAux rw maxW w ws

/-- Digit-string parser: the all-digits payload of Python's `int(str)`. -/
def parseDigits (ds : List Char) : Option Nat :=
  if ds.isEmpty then none
  else if ds.all Char.isDigit then
    some (ds.foldl (fun a c => a * 10 + (c.toNat - 48)) 0)
  else none

/-- Model of Python's `int(s)` on strings: strip surrounding whitespace,
allow one optional sign, then require a nonempty run of ASCII decimal
digits; anything else raises, modelled as `none`.  (CPython's underscore
separators and non-ASCII digits are not modelled; no claim depends on
exactly which exotic strings parse.) -/
def pyParseInt (s : String) : Option Int :=
  let t := ((s.toList.dropWhile pyIsSpace).reverse.dropWhile pyIsSpace).reverse
  match t with
  | '+' :: ds => (parseDigits ds).map Int.ofNat
  | '-' :: ds => (parseDigits ds).map (fun n => -(Int.ofNat n))
  | ds => (parseDigits ds).map Int.ofNat

/-- Suffix computation of `ordinal` (autopost.py lines 227-231) on the
parsed integer: `th` for `n % 100` in `[10, 20]`, otherwise keyed by
`n % 10` through the dict `\x7b1: st, 2: nd, 3: rd\x7d` with default `th`.
`%` on `Int` agrees with Python's `%` for positive moduli. -/
def ordinalInt (n : Int) : String :=
  let suffix :=
    if 10 ≤ n % 100 ∧ n % 100 ≤ 20 then "th"
    else if n % 10 = 1 then "st"
    else if n % 10 = 2 then "nd"
    else if n % 10 = 3 then "rd"
    else "th"
  toString n ++ suffix

/-- `ordinal` (autopost.py lines 222-231): parse the rank string; on
failure return the input unchanged, otherwise append the ordinal suffix. -/
def ordinal (rank_str : String) : String :=
  match pyParseInt rank_str with
  | none => rank_str
  | some n => ordinalInt n

/-! ## Data records produced by `parse_meeting_file` -/

/-- One `Statistic` XML node's extracted attributes (autopost.py lines
162-168); missing attributes default to the empty string via
`attrib.get(x, "")`. -/
structure StatItem where
  rank : String
  name : String
  wins : String
  runs : String
  strikeRate : String
deriving DecidableEq, Repr

/-- One `Runner` node of `RunnerDropInClass` (autopost.py lines 179-183). -/
structure RunnerItem where
  name : String
  raceTime : String
deriving DecidableEq, Repr

/-- One `Runner` node of `WonOffHigherHandicap` after parsing (autopost.py
lines 188-204): the weight clause is pre-digested into the string `diff`. -/
structure WonItem where
  name : String
  raceTime : String
  diff : String
deriving DecidableEq, Repr

/-- The meeting record returned by `parse_meeting_file` (autopost.py lines
209-219), minus the date/tla plumbing that no claim touches. -/
structure Meeting where
  meeting_name : String
  top_track_trainers : List StatItem
  top_track_jockeys : List StatItem
  hot_trainers : List StatItem
  hot_jockeys : List StatItem
  drop_runners : List RunnerItem
  won_runners : List WonItem
deriving DecidableEq, Repr

/-- `get_top_list` (autopost.py lines 153-169) restricted to its list
manipulation: the matching category node's `Statistic` children (already
extracted into `StatItem`s) are truncated by the slice `[:5]`. -/
def get_top_list (stats : List StatItem) : List StatItem :=
  stats.take 5

/-- The `diff` computation for a `WonOffHigherHandicap` runner
(autopost.py lines 190-199): both weight strings must be truthy
(nonempty), both must parse as ints, and the difference must be positive;
any parse failure is caught and yields the empty string. -/
def computeDiff (weightThen weightNow : String) : String :=
  if weightThen ≠ "" ∧ weightNow ≠ "" then
    match pyParseInt weightThen, pyParseInt weightNow with
    | some a, some b => if 0 < a - b then toString (a - b) else ""
    | _, _ => ""
  else ""

/-! ## The Composer: `build_posts_for_meeting` -/

/-- One section of a post: a heading and its body lines (the dicts built
in autopost.py lines 479-536). -/
structure PSec where
  heading : String
  lines : List String
deriving DecidableEq, Repr

/-- One post: title plus ordered sections (autopost.py lines 538-554). -/
structure Post where
  title : String
  sections : List PSec
deriving DecidableEq, Repr

/-- `trainer_line` (autopost.py lines 462-468). -/
def trainer_line (item : StatItem) : String :=
  ordinal item.rank ++ "\x20" ++ item.name ++ " – " ++ item.strikeRate ++
    "% strike rate (" ++ item.wins ++ " wins from " ++ item.runs ++ " runners)"

/-- `jockey_line` (autopost.py lines 470-476). -/
def jockey_line (item : StatItem) : String :=
  ordinal item.rank ++ "\x20" ++ item.name ++ " – " ++ item.strikeRate ++
    "% strike rate (" ++ item.wins ++ " wins from " ++ item.runs ++ " rides)"

/-- Body line for a dropping-in-class runner (autopost.py lines 511-517):
the race-time clause is only added when `raceTime` is truthy. -/
def dropLine (r : RunnerItem) : String :=
  if r.raceTime ≠ "" then r.name ++ " running in the " ++ r.raceTime
  else r.name

/-- Body line for a well-handicapped runner (autopost.py lines 525-532):
the weight clause is only added when the pre-digested `diff` is truthy. -/
def wonLine (r : WonItem) : String :=
  if r.diff ≠ "" then
    r.name ++ " won off a " ++ r.diff ++ "lb higher mark – runs in the " ++
      r.raceTime ++ " today"
  else r.name ++ " – runs in the " ++ r.raceTime ++ " today"

/-- `sections1` of `build_posts_for_meeting` (autopost.py lines 479-489):
top-track trainer/jockey sections, each emitted only when its category
list is truthy (nonempty). -/
def sections1 (m : Meeting) : List PSec :=
  (if m.top_track_trainers.isEmpty then [] else
    [{ heading := "Top Track Trainers – Last 5 Years",
       lines := m.top_track_trainers.map trainer_line }]) ++
  (if m.top_track_jockeys.isEmpty then [] else
    [{ heading := "Top Track Jockeys – Last 5 Years",
       lines := m.top_track_jockeys.map jockey_line }])

/-- `sections2` of `build_posts_for_meeting` (autopost.py lines 492-502). -/
def sections2 (m : Meeting) : List PSec :=
  (if m.hot_trainers.isEmpty then [] else
    [{ heading := "Hot Trainers (Last Month)",
       lines := m.hot_trainers.map trainer_line }]) ++
  (if m.hot_jockeys.isEmpty then [] else
    [{ heading := "Hot Jockeys (Last Month)",
       lines := m.hot_jockeys.map jockey_line }])

/-- `sections3` of `build_posts_for_meeting` (autopost.py lines 505-536). -/
def sections3 (m : Meeting) : List PSec :=
  (if m.drop_runners.isEmpty then [] else
    [{ heading := "Horses Dropping in Class",
       lines := m.drop_runners.map dropLine }]) ++
  (if m.won_runners.isEmpty then [] else
    [{ heading := "Well Handicapped Horses",
       lines := m.won_runners.map wonLine }])

/-- `build_posts_for_meeting` (autopost.py lines 455-554): up to three
posts, each emitted only when its section list is truthy (nonempty). -/
def build_posts_for_meeting (m : Meeting) : List Post :=
  (if (sections1 m).isEmpty then [] else
    [{ title := m.meeting_name, sections := sections1 m }]) ++
  (if (sections2 m).isEmpty then [] else
    [{ title := m.meeting_name, sections := sections2 m }]) ++
  (if (sections3 m).isEmpty then [] else
    [{ title := m.meeting_name, sections := sections3 m }])

/-! ## Canvas constants and fonts -/

def IMG_W : Nat := 1080
def IMG_H : Nat := 1080
def MARGIN_X : Nat := 80
def MARGIN_TOP : Nat := 80
def MARGIN_BOTTOM : Nat := 80

/-- `max_text_width` (autopost.py line 335). -/
def maxTextWidth : Nat := IMG_W - 2 * MARGIN_X

/-- A PIL font as the rendering code observes it: a pixel-width measure
for strings (via `draw.textbbox`) and the fixed per-line height
`font.getbbox("Ag")[3]`. -/
structure Font where
  width : List Char → Nat
  lineH : Nat

/-- `calculate_content_height` (autopost.py lines 294-318): top margin,
optional logo block, wrapped title at `lineH + 8` per line plus 10, then
per section the wrapped heading at `lineH + 6` per line plus 6, each body
line wrapped at `lineH + 6` per line, and a 12 pixel gap per section. -/
def calculate_content_height (tf sf bf : Font) (title : List Char)
    (secs : List PSec) (logoH : Nat) : Nat :=
  let base := MARGIN_TOP + (if logoH ≠ 0 then logoH + 30 else 0)
  let titlePart :=
    (wrap_text tf.width title maxTextWidth).length * (tf.lineH + 8) + 10
  let secPart := (secs.map (fun sec =>
    (wrap_text sf.width sec.heading.toList maxTextWidth).length * (sf.lineH + 6) + 6 +
    ((sec.lines.map (fun t =>
      (wrap_text bf.width t.toList maxTextWidth).length * (bf.lineH + 6))).sum) +
    12)).sum
  base + titlePart + secPart

/-- The fixed candidate size triples of the fitting loop (autopost.py
lines 339-341): `zip(title_sizes, section_sizes, body_sizes)`. -/
def sizeCandidates : List (Nat × Nat × Nat) :=
  [(56, 40, 32), (48, 36, 28), (42, 32, 26), (36, 28, 24)]

/-- The `for ... break` search of `render_post_image` (autopost.py lines
344-354): return the first candidate accepted by `fits`, or none. -/
def chooseSizesLoop (fits : Nat × Nat × Nat → Bool) :
    List (Nat × Nat × Nat) → Option (Nat × Nat × Nat)
  | [] => none
  | c :: rest => if fits c then some c else chooseSizesLoop fits rest

/-- The chosen sizes including the fallback (autopost.py lines 357-362):
when no candidate fits, the smallest sizes `(36, 28, 24)` are used. -/
def chooseSizes (fits : Nat × Nat × Nat → Bool) : Nat × Nat × Nat :=
  match chooseSizesLoop fits sizeCandidates with
  | some c => c
  | none => (36, 28, 24)

/-- The fit test of the loop (autopost.py line 352): the computed content
height must not exceed `IMG_H - MARGIN_BOTTOM`.  `boldF`/`regF` resolve a
size to the bold (title/section) resp. regular (body) font, abstracting
`load_font`. -/
def fitsSizes (boldF regF : Nat → Font) (title : List Char)
    (secs : List PSec) (logoH : Nat) (c : Nat × Nat × Nat) : Bool :=
  decide (calculate_content_height (boldF c.1) (boldF c.2.1) (regF c.2.2)
    title secs logoH ≤ IMG_H - MARGIN_BOTTOM)

/-- Resolved fonts for the whole render (autopost.py lines 343-364). -/
def chooseFonts (boldF regF : Nat → Font) (title : List Char)
    (secs : List PSec) (logoH : Nat) : Font × Font × Font :=
  let c := chooseSizes (fitsSizes boldF regF title secs logoH)
  (boldF c.1, boldF c.2.1, regF c.2.2)

/-! ## The Canvas Renderer as a list of draw instructions -/

/-- Which kind of text a draw instruction paints (title and heading use the
gold accent colour, body uses white). -/
inductive DrawKind where
  | title
  | heading
  | body
deriving DecidableEq, Repr

/-- One `draw.text` call: the y coordinate, the painted line and its kind.
The x coordinate is always `MARGIN_X` and is omitted. -/
structure Draw where
  y : Int
  text : List Char
  kind : DrawKind
deriving DecidableEq, Repr

/-- Title loop (autopost.py lines 370-374): every wrapped title line is
drawn, with no bound check, advancing y by `lineH + 8`. -/
def drawTitleLines (f : Font) (y : Int) :
    List (List Char) → List Draw × Int
  | [] => ([], y)
  | l :: ls =>
    let rest := drawTitleLines f (y + f.lineH + 8) ls
    ({ y := y, text := l, kind := DrawKind.title } :: rest.1, rest.2)

/-- Heading loop (autopost.py lines 384-390): each wrapped heading line is
drawn only while `y` has not passed `IMG_H - MARGIN_BOTTOM`; the loop
breaks at the first violation. -/
def drawHeadingLines (f : Font) (y : Int) :
    List (List Char) → List Draw × Int
  | [] => ([], y)
  | l :: ls =>
    if (IMG_H : Int) - MARGIN_BOTTOM < y then ([], y)
    else
      let rest := drawHeadingLines f (y + f.lineH + 6) ls
      ({ y := y, text := l, kind := DrawKind.heading } :: rest.1, rest.2)

/-- Inner body-line loop (autopost.py lines 396-401): each wrapped line of
one body text is drawn only while `y ≤ IMG_H - MARGIN_BOTTOM - line_h`;
the Boolean records whether the loop broke for lack of vertical space. -/
def drawWrapped (f : Font) (y : Int) :
    List (List Char) → List Draw × Int × Bool
  | [] => ([], y, false)
  | l :: ls =>
    if (IMG_H : Int) - MARGIN_BOTTOM - f.lineH < y then ([], y, true)
    else
      let rest := drawWrapped f (y + f.lineH + 6) ls
      ({ y := y, text := l, kind := DrawKind.body } :: rest.1, rest.2)

/-- Outer body loop with Python's `for ... else` (autopost.py lines
394-407): as soon as the inner loop breaks, the `break` at line 407 exits
this `for text in lines` loop, so the section's remaining body texts are
skipped.  The Boolean records that break; the section loop itself does
not consult it (the comment at line 406 overstates what the break does). -/
def drawBodyTexts (f : Font) (y : Int) :
    List String → List Draw × Int × Bool
  | [] => ([], y, false)
  | t :: ts =>
    let one := drawWrapped f y (wrap_text f.width t.toList maxTextWidth)
    if one.2.2 then (one.1, one.2.1, true)
    else
      let rest := drawBodyTexts f one.2.1 ts
      (one.1 ++ rest.1, rest.2)

/-- Section loop (autopost.py lines 379-411): heading lines, 6 extra
pixels, then the body texts (whose break ends only this section's body
loop); whether or not the body loop broke, the 12 pixel gap of line 409
is added and the loop moves to the next section unless `y` has passed
the bottom margin (lines 410-411). -/
def drawSections (sf bf : Font) (y : Int) : List PSec → List Draw
  | [] => []
  | sec :: rest =>
    let hd := drawHeadingLines sf y
      (wrap_text sf.width sec.heading.toList maxTextWidth)
    let bd := drawBodyTexts bf (hd.2 + 6) sec.lines
    let y4 := bd.2.1 + 12
    if (IMG_H : Int) - MARGIN_BOTTOM < y4 then hd.1 ++ bd.1
    else hd.1 ++ bd.1 ++ drawSections sf bf y4 rest

/-- The drawing phase of `render_post_image` (autopost.py lines 366-411)
for already-chosen fonts: title start below logo/top margin, all title
lines, then `+10`, then the sections. -/
def renderDraws (tf sf bf : Font) (logoH : Nat) (title : List Char)
    (secs : List PSec) : List Draw :=
  let y0 : Int := MARGIN_TOP + (if logoH ≠ 0 then (logoH : Int) + 30 else 0)
  let t := drawTitleLines tf y0 (wrap_text tf.width title maxTextWidth)
  t.1 ++ drawSections sf bf (t.2 + 10) secs

/-- `render_post_image` (autopost.py lines 321-415) as the list of text
draw instructions it issues: size fitting followed by the drawing phase. -/
def render_post_image (boldF regF : Nat → Font) (logoH : Nat)
    (title : List Char) (secs : List PSec) : List Draw :=
  let f := chooseFonts boldF regF title secs logoH
  renderDraws f.1 f.2.1 f.2.2 logoH title secs

/-! ## A small-step view of the fitting loop, for the determinism claim -/

/-- State of the fitting loop of `render_post_image` (autopost.py lines
343-354): the candidate sizes not yet tried, and the accepted sizes once
the loop has broken. -/
abbrev FitState := List (Nat × Nat × Nat) × Option (Nat × Nat × Nat)

/-- One iteration of the fitting loop: the head candidate is either
accepted (its content height fits) and the loop stops, or rejected and the
loop moves on. -/
inductive FitStep (fits : Nat × Nat × Nat → Bool) : FitState → FitState → Prop
  | found (c : Nat × Nat × Nat) (rest : List (Nat × Nat × Nat)) :
      fits c = true → FitStep fits (c :: rest, none) ([], some c)
  | skip (c : Nat × Nat × Nat) (rest : List (Nat × Nat × Nat)) :
      fits c = false → FitStep fits (c :: rest, none) (rest, none)

/-- A state of the fitting loop from which no further iteration runs:
either a candidate was accepted or the candidates are exhausted. -/
def FitFinal (s : FitState) : Prop := s.2.isSome = true ∨ s.1 = []

/-- Executable run of the fitting loop from a pending candidate list. -/
def runFit (fits : Nat × Nat × Nat → Bool) :
    List (Nat × Nat × Nat) → FitState
  | [] => ([], none)
  | c :: rest => if fits c then ([], some c) else runFit fits rest

/-- Sizes extracted from a stopped loop state, including the smallest-size
fallback of autopost.py lines 357-362. -/
def fitOutcome (s : FitState) : Nat × Nat × Nat :=
  match s.2 with
  | some c => c
  | none => (36, 28, 24)

/-! ## Concrete inputs used by counterexamples and witnesses -/

/-- A meeting with one top-track trainer row and every other category
empty, as parsed from a source file with those categories absent. -/
def mEx : Meeting :=
  { meeting_name := "Newbury"
    top_track_trainers := [{ rank := "1", name := "A", wins := "5",
                             runs := "20", strikeRate := "25" }]
    top_track_jockeys := []
    hot_trainers := []
    hot_jockeys := []
    drop_runners := []
    won_runners := [] }

/-- A concrete bold-font resolver: width is `size` pixels per character
and the line height is ten times the size. -/
def exBold : Nat → Font :=
  fun n => { width := fun cs => cs.length * n, lineH := 10 * n }

/-- A concrete regular-font resolver. -/
def exReg : Nat → Font :=
  fun n => { width := fun cs => cs.length * n, lineH := n }

/-- A four-word title each word of which is too wide to share a line with
another at any candidate size under `exBold`. -/
def exTitle : List Char :=
  "aaaaaaaaaaaaa aaaaaaaaaaaaa aaaaaaaaaaaaa aaaaaaaaaaaaa".toList

/-! ## Helper lemmas -/

theorem pyParseInt_some_ne_empty {s : String} {a : Int}
    (h : pyParseInt s = some a) : s ≠ "" := by
  intro he
  subst he
  have hnone : pyParseInt "" = none := by decide
  rw [hnone] at h
  exact Option.noConfusion h

theorem toDigitsCore_length_ge (b : Nat) :
    ∀ (fuel n : Nat) (ds : List Char),
      ds.length ≤ (Nat.toDigitsCore b fuel n ds).length := by
  intro fuel
  induction fuel with
  | zero => intro n ds; simp [Nat.toDigitsCore]
  | succ fuel ih =>
    intro n ds
    simp only [Nat.toDigitsCore]
    split
    · simp
    · exact le_trans (by simp) (ih (n / b) (Nat.digitChar (n % b) :: ds))

theorem toDigits_ne_nil (b n : Nat) : Nat.toDigits b n ≠ [] := by
  simp only [Nat.toDigits, Nat.toDigitsCore]
  split
  · simp
  · intro h
    have h2 := toDigitsCore_length_ge b n (n / b) [Nat.digitChar (n % b)]
    rw [h] at h2
    simp at h2

theorem nat_repr_ne_empty (n : Nat) : Nat.repr n ≠ "" := by
  intro h
  have h2 : (Nat.toDigits 10 n) = [] := congrArg String.data h
  exact toDigits_ne_nil 10 n h2

theorem int_toString_pos_ne_empty (n : Int) (hn : 0 < n) : toString n ≠ "" := by
  lift n to Nat using le_of_lt hn
  exact nat_repr_ne_empty n

/-! ## Claim C5: the ordinal suffix rule -/

/-- Claim C5: for every integer n, the ordinal suffix is th when
n % 100 lies in [10, 20], and otherwise st/nd/rd/th keyed by n % 10;
in particular the ten listed example ranks format as stated. -/
theorem ordinal_suffix_rule :
    (∀ n : Int,
      ((10 ≤ n % 100 ∧ n % 100 ≤ 20) → ordinalInt n = toString n ++ "th")
      ∧ (¬(10 ≤ n % 100 ∧ n % 100 ≤ 20) →
          (n % 10 = 1 → ordinalInt n = toString n ++ "st")
          ∧ (n % 10 = 2 → ordinalInt n = toString n ++ "nd")
          ∧ (n % 10 = 3 → ordinalInt n = toString n ++ "rd")
          ∧ (n % 10 ≠ 1 → n % 10 ≠ 2 → n % 10 ≠ 3 →
              ordinalInt n = toString n ++ "th")))
    ∧ ordinal "1" = "1st" ∧ ordinal "2" = "2nd" ∧ ordinal "3" = "3rd"
    ∧ ordinal "4" = "4th" ∧ ordinal "11" = "11th" ∧ ordinal "12" = "12th"
    ∧ ordinal "13" = "13th" ∧ ordinal "21" = "21st"
    ∧ ordinal "101" = "101st" ∧ ordinal "111" = "111th" := by
  refine ⟨fun n => ⟨fun h => ?_, fun h =>
      ⟨fun h1 => ?_, fun h2 => ?_, fun h3 => ?_, fun h1 h2 h3 => ?_⟩⟩,
    by decide, by decide, by decide, by decide, by decide, by decide,
    by decide, by decide, by decide, by decide⟩
  all_goals simp only [ordinalInt]
  · rw [if_pos h]
  · rw [if_neg h, if_pos h1]
  · rw [if_neg h, if_neg (by omega), if_pos h2]
  · rw [if_neg h, if_neg (by omega), if_neg (by omega), if_pos h3]
  · rw [if_neg h, if_neg h1, if_neg h2, if_neg h3]

/-- Witness for C5 at the concrete ranks 111 and 21. -/
theorem ordinal_suffix_rule_witness :
    ordinalInt 111 = toString (111 : Int) ++ "th"
    ∧ ordinalInt 21 = toString (21 : Int) ++ "st" :=
  ⟨(ordinal_suffix_rule.1 111).1 (by decide),
   ((ordinal_suffix_rule.1 21).2 (by decide)).1 (by decide)⟩

/-! ## Claim C10: non-numeric ranks pass through unchanged -/

/-- Claim C10: for every input string that does not parse as an integer,
ordinal returns the input unchanged, raising nothing and appending no
suffix. -/
theorem ordinal_nonnumeric_unchanged :
    ∀ s : String, pyParseInt s = none → ordinal s = s := by
  intro s h
  simp [ordinal, h]

/-- Witness for C10 at the concrete non-numeric rank string n/a. -/
theorem ordinal_nonnumeric_unchanged_witness :
    pyParseInt "n/a" = none ∧ ordinal "n/a" = "n/a" :=
  ⟨by decide, ordinal_nonnumeric_unchanged "n/a" (by decide)⟩

/-! ## Claim C2: the stat-line body text format -/

/-- Claim C2 as stated is false: the Composer inserts an en dash between
the name and the strike rate, so the rendered text is not
ordinal(rank) name strikeRate% strike rate (...) at this concrete row. -/
theorem stat_line_missing_dash_counterexample :
    trainer_line { rank := "1", name := "A", wins := "5", runs := "20",
                   strikeRate := "25" }
      = "1st A – 25% strike rate (5 wins from 20 runners)"
    ∧ trainer_line { rank := "1", name := "A", wins := "5", runs := "20",
                     strikeRate := "25" }
      ≠ "1st A 25% strike rate (5 wins from 20 runners)" := by
  constructor
  · decide
  · decide

/-- Claim C2 amended: every StatRow body text is
ordinal(rank) name – strikeRate% strike rate (wins wins from runs word),
with word runners for trainer categories and rides for jockey categories;
the top-track sections of the Composer carry exactly these lines. -/
theorem stat_line_format :
    ∀ (m : Meeting) (item : StatItem),
      trainer_line item =
        ordinal item.rank ++ "\x20" ++ item.name ++ " – " ++ item.strikeRate ++
          "% strike rate (" ++ item.wins ++ " wins from " ++ item.runs ++
          " runners)"
      ∧ jockey_line item =
        ordinal item.rank ++ "\x20" ++ item.name ++ " – " ++ item.strikeRate ++
          "% strike rate (" ++ item.wins ++ " wins from " ++ item.runs ++
          " rides)"
      ∧ (m.top_track_trainers ≠ [] → ∃ s ∈ sections1 m,
          s.lines = m.top_track_trainers.map trainer_line)
      ∧ (m.top_track_jockeys ≠ [] → ∃ s ∈ sections1 m,
          s.lines = m.top_track_jockeys.map jockey_line) := by
  intro m item
  refine ⟨rfl, rfl, fun ht => ?_, fun hj => ?_⟩
  · refine ⟨{ heading := "Top Track Trainers – Last 5 Years",
              lines := m.top_track_trainers.map trainer_line }, ?_, rfl⟩
    have he : m.top_track_trainers.isEmpty = false := by
      simpa [List.isEmpty_iff] using ht
    simp [sections1, he]
  · refine ⟨{ heading := "Top Track Jockeys – Last 5 Years",
              lines := m.top_track_jockeys.map jockey_line }, ?_, rfl⟩
    have he : m.top_track_jockeys.isEmpty = false := by
      simpa [List.isEmpty_iff] using hj
    simp [sections1, he]

/-- Witness for C2 (amended) at a concrete meeting with one trainer row
and one jockey row. -/
theorem stat_line_format_witness :
    ∃ s ∈ sections1 (Meeting.mk "X" [StatItem.mk "2" "B" "4" "10" "40"]
      [] [] [] [] []),
      s.lines = [trainer_line (StatItem.mk "2" "B" "4" "10" "40")] :=
  (stat_line_format
    (Meeting.mk "X" [StatItem.mk "2" "B" "4" "10" "40"] [] [] [] [] [])
    (StatItem.mk "2" "B" "4" "10" "40")).2.2.1 (by decide)

/-! ## Claim C6: the well-handicapped weight clause -/

theorem computeDiff_pos {wt wn : String} {a b : Int}
    (h1 : pyParseInt wt = some a) (h2 : pyParseInt wn = some b)
    (h3 : 0 < a - b) : computeDiff wt wn = toString (a - b) := by
  simp only [computeDiff]
  rw [if_pos ⟨pyParseInt_some_ne_empty h1, pyParseInt_some_ne_empty h2⟩]
  rw [h1, h2]
  simp [h3]

theorem computeDiff_none_left {wt wn : String}
    (h : pyParseInt wt = none) : computeDiff wt wn = "" := by
  simp only [computeDiff]
  split
  · rcases h2 : pyParseInt wn with _ | b <;> simp [h, h2]
  · rfl

theorem computeDiff_none_right {wt wn : String}
    (h : pyParseInt wn = none) : computeDiff wt wn = "" := by
  simp only [computeDiff]
  split
  · rcases h1 : pyParseInt wt with _ | a <;> simp [h, h1]
  · rfl

theorem computeDiff_nonpos {wt wn : String} {a b : Int}
    (h1 : pyParseInt wt = some a) (h2 : pyParseInt wn = some b)
    (h3 : a - b ≤ 0) : computeDiff wt wn = "" := by
  simp only [computeDiff]
  split
  · rw [h1, h2]
    simp only
    rw [if_neg (by omega)]
  · rfl

/-- Claim C6: when both weights parse and the difference is positive the
well-handicapped body line carries the weight clause; when either weight
is missing or unparseable, or the difference is not positive, the weight
clause is omitted; the formatting itself is total, so no exception
escapes it. -/
theorem won_line_weight_clause :
    ∀ (name time wt wn : String),
      (∀ a b : Int, pyParseInt wt = some a → pyParseInt wn = some b →
        0 < a - b →
        wonLine (WonItem.mk name time (computeDiff wt wn)) =
          name ++ " won off a " ++ toString (a - b) ++
            "lb higher mark – runs in the " ++ time ++ " today")
      ∧ ((pyParseInt wt = none ∨ pyParseInt wn = none) →
        wonLine (WonItem.mk name time (computeDiff wt wn)) =
          name ++ " – runs in the " ++ time ++ " today")
      ∧ (∀ a b : Int, pyParseInt wt = some a → pyParseInt wn = some b →
        a - b ≤ 0 →
        wonLine (WonItem.mk name time (computeDiff wt wn)) =
          name ++ " – runs in the " ++ time ++ " today") := by
  intro name time wt wn
  refine ⟨fun a b h1 h2 h3 => ?_, fun h => ?_, fun a b h1 h2 h3 => ?_⟩
  · rw [computeDiff_pos h1 h2 h3]
    simp only [wonLine]
    rw [if_pos]
    exact int_toString_pos_ne_empty (a - b) h3
  · rcases h with h | h
    · rw [computeDiff_none_left h]
      simp [wonLine]
    · rw [computeDiff_none_right h]
      simp [wonLine]
  · rw [computeDiff_nonpos h1 h2 h3]
    simp [wonLine]

/-- Witness for C6: weights 140/126 give the 14lb clause, a missing
weightThen omits the clause. -/
theorem won_line_weight_clause_witness :
    wonLine (WonItem.mk "Horse" "2.30" (computeDiff "140" "126")) =
      "Horse" ++ " won off a " ++ toString ((140 : Int) - 126) ++
        "lb higher mark – runs in the " ++ "2.30" ++ " today"
    ∧ wonLine (WonItem.mk "Horse" "2.30" (computeDiff "" "126")) =
      "Horse" ++ " – runs in the " ++ "2.30" ++ " today" :=
  ⟨(won_line_weight_clause "Horse" "2.30" "140" "126").1 140 126
      (by decide) (by decide) (by decide),
   (won_line_weight_clause "Horse" "2.30" "" "126").2.1
      (Or.inl (by decide))⟩

/-! ## Claim C7: StatRow lists are truncated to at most five entries -/

/-- Claim C7: the parsed list of a ranked-statistic category never exceeds
five rows, a source with eight rows parses to exactly five, fewer rows are
kept as-is with no padding, and the Composer renders one body line per
kept row. -/
theorem stat_rows_truncated_to_five :
    ∀ stats : List StatItem,
      (get_top_list stats).length = min stats.length 5
      ∧ (stats.length = 8 → (get_top_list stats).length = 5)
      ∧ (stats.length ≤ 5 → get_top_list stats = stats)
      ∧ ((get_top_list stats).map trainer_line).length =
          (get_top_list stats).length
      ∧ (∀ m : Meeting, m.top_track_trainers ≠ [] →
          ∃ s ∈ sections1 m,
            s.heading = "Top Track Trainers – Last 5 Years" ∧
            s.lines.length = m.top_track_trainers.length) := by
  intro stats
  refine ⟨?_, fun h8 => ?_, fun h5 => ?_, ?_, fun m hm => ?_⟩
  · simp [get_top_list, Nat.min_comm]
  · simp [get_top_list, h8]
  · simp [get_top_list, List.take_of_length_le h5]
  · simp
  · refine ⟨{ heading := "Top Track Trainers – Last 5 Years",
              lines := m.top_track_trainers.map trainer_line }, ?_, rfl, by simp⟩
    have he : m.top_track_trainers.isEmpty = false := by
      simpa [List.isEmpty_iff] using hm
    simp [sections1, he]

/-- Witness for C7 at a concrete category with eight rows. -/
theorem stat_rows_truncated_to_five_witness :
    (get_top_list (List.replicate 8 (StatItem.mk "1" "X" "1" "2" "50"))).length
      = 5
    ∧ ∃ s ∈ sections1 (Meeting.mk "Y" [StatItem.mk "1" "X" "1" "2" "50"]
        [] [] [] [] []),
        s.heading = "Top Track Trainers – Last 5 Years" ∧
        s.lines.length =
          (Meeting.mk "Y" [StatItem.mk "1" "X" "1" "2" "50"]
            [] [] [] [] []).top_track_trainers.length :=
  ⟨(stat_rows_truncated_to_five
      (List.replicate 8 (StatItem.mk "1" "X" "1" "2" "50"))).2.1 (by decide),
   (stat_rows_truncated_to_five []).2.2.2.2
      (Meeting.mk "Y" [StatItem.mk "1" "X" "1" "2" "50"] [] [] [] [] [])
      (by decide)⟩

/-! ## Claim C1: empty categories and placeholder body lines -/

theorem mem_sections1 {m : Meeting} {s : PSec} (h : s ∈ sections1 m) :
    (s.heading = "Top Track Trainers – Last 5 Years"
      ∧ s.lines = m.top_track_trainers.map trainer_line
      ∧ m.top_track_trainers ≠ [])
    ∨ (s.heading = "Top Track Jockeys – Last 5 Years"
      ∧ s.lines = m.top_track_jockeys.map jockey_line
      ∧ m.top_track_jockeys ≠ []) := by
  simp only [sections1, List.mem_append] at h
  rcases h with h | h
  · left
    split at h
    · simp at h
    · rename_i hne
      rw [List.mem_singleton] at h
      subst h
      exact ⟨rfl, rfl, by simpa [List.isEmpty_iff] using hne⟩
  · right
    split at h
    · simp at h
    · rename_i hne
      rw [List.mem_singleton] at h
      subst h
      exact ⟨rfl, rfl, by simpa [List.isEmpty_iff] using hne⟩

theorem mem_sections2 {m : Meeting} {s : PSec} (h : s ∈ sections2 m) :
    (s.heading = "Hot Trainers (Last Month)"
      ∧ s.lines = m.hot_trainers.map trainer_line
      ∧ m.hot_trainers ≠ [])
    ∨ (s.heading = "Hot Jockeys (Last Month)"
      ∧ s.lines = m.hot_jockeys.map jockey_line
      ∧ m.hot_jockeys ≠ []) := by
  simp only [sections2, List.mem_append] at h
  rcases h with h | h
  · left
    split at h
    · simp at h
    · rename_i hne
      rw [List.mem_singleton] at h
      subst h
      exact ⟨rfl, rfl, by simpa [List.isEmpty_iff] using hne⟩
  · right
    split at h
    · simp at h
    · rename_i hne
      rw [List.mem_singleton] at h
      subst h
      exact ⟨rfl, rfl, by simpa [List.isEmpty_iff] using hne⟩

theorem mem_sections3 {m : Meeting} {s : PSec} (h : s ∈ sections3 m) :
    (s.heading = "Horses Dropping in Class"
      ∧ s.lines = m.drop_runners.map dropLine
      ∧ m.drop_runners ≠ [])
    ∨ (s.heading = "Well Handicapped Horses"
      ∧ s.lines = m.won_runners.map wonLine
      ∧ m.won_runners ≠ []) := by
  simp only [sections3, List.mem_append] at h
  rcases h with h | h
  · left
    split at h
    · simp at h
    · rename_i hne
      rw [List.mem_singleton] at h
      subst h
      exact ⟨rfl, rfl, by simpa [List.isEmpty_iff] using hne⟩
  · right
    split at h
    · simp at h
    · rename_i hne
      rw [List.mem_singleton] at h
      subst h
      exact ⟨rfl, rfl, by simpa [List.isEmpty_iff] using hne⟩

theorem mem_build_posts {m : Meeting} {p : Post}
    (h : p ∈ build_posts_for_meeting m) :
    p.sections = sections1 m ∨ p.sections = sections2 m
    ∨ p.sections = sections3 m := by
  simp only [build_posts_for_meeting, List.mem_append] at h
  rcases h with (h | h) | h
  · left
    split at h
    · simp at h
    · rw [List.mem_singleton] at h
      subst h
      rfl
  · right; left
    split at h
    · simp at h
    · rw [List.mem_singleton] at h
      subst h
      rfl
  · right; right
    split at h
    · simp at h
    · rw [List.mem_singleton] at h
      subst h
      rfl

/-- Claim C1 as stated is false: a record with one top-track trainer row
and an empty jockey category yields a top-track post with a single
trainer section — no Top Track Jockeys heading and no placeholder body
line appear anywhere in the Composer output. -/
theorem composer_no_placeholder_counterexample :
    build_posts_for_meeting mEx =
      [Post.mk "Newbury"
        [PSec.mk "Top Track Trainers – Last 5 Years"
          ["1st A – 25% strike rate (5 wins from 20 runners)"]]]
    ∧ ((build_posts_for_meeting mEx).all fun p => p.sections.all fun s =>
        !(s.heading == "Top Track Jockeys – Last 5 Years")) = true := by
  constructor
  · decide
  · decide

/-- Claim C1 amended: a category with zero rows produces no section at
all — neither its heading nor any placeholder body line; every emitted
section belongs to a nonempty category and carries exactly one body line
per row, so a heading is never emitted with no body line below it. -/
theorem composer_omits_empty_categories :
    ∀ m : Meeting,
      (∀ p ∈ build_posts_for_meeting m, ∀ s ∈ p.sections, s.lines ≠ [])
      ∧ (m.top_track_jockeys = [] →
          ∀ p ∈ build_posts_for_meeting m, ∀ s ∈ p.sections,
            s.heading ≠ "Top Track Jockeys – Last 5 Years") := by
  intro m
  constructor
  · intro p hp s hs
    rcases mem_build_posts hp with h | h | h <;> rw [h] at hs
    · rcases mem_sections1 hs with ⟨_, hl, hne⟩ | ⟨_, hl, hne⟩ <;>
        simp [hl, hne]
    · rcases mem_sections2 hs with ⟨_, hl, hne⟩ | ⟨_, hl, hne⟩ <;>
        simp [hl, hne]
    · rcases mem_sections3 hs with ⟨_, hl, hne⟩ | ⟨_, hl, hne⟩ <;>
        simp [hl, hne]
  · intro hj p hp s hs
    rcases mem_build_posts hp with h | h | h <;> rw [h] at hs
    · rcases mem_sections1 hs with ⟨hh, _, _⟩ | ⟨_, _, hne⟩
      · rw [hh]; decide
      · exact absurd hj hne
    · rcases mem_sections2 hs with ⟨hh, _, _⟩ | ⟨hh, _, _⟩ <;>
        (rw [hh]; decide)
    · rcases mem_sections3 hs with ⟨hh, _, _⟩ | ⟨hh, _, _⟩ <;>
        (rw [hh]; decide)

/-- Witness for C1 (amended) at the concrete meeting of the
counterexample. -/
theorem composer_omits_empty_categories_witness :
    (PSec.mk "Top Track Trainers – Last 5 Years"
        ["1st A – 25% strike rate (5 wins from 20 runners)"]).lines ≠ []
    ∧ (PSec.mk "Top Track Trainers – Last 5 Years"
        ["1st A – 25% strike rate (5 wins from 20 runners)"]).heading ≠
      "Top Track Jockeys – Last 5 Years" :=
  ⟨(composer_omits_empty_categories mEx).1
      (Post.mk "Newbury"
        [PSec.mk "Top Track Trainers – Last 5 Years"
          ["1st A – 25% strike rate (5 wins from 20 runners)"]])
      (by decide) _ (by decide),
   (composer_omits_empty_categories mEx).2 (by decide)
      (Post.mk "Newbury"
        [PSec.mk "Top Track Trainers – Last 5 Years"
          ["1st A – 25% strike rate (5 wins from 20 runners)"]])
      (by decide) _ (by decide)⟩

/-! ## Claim C3: wrap correctness -/

theorem splitWs_words (cs : List Char) :
    ∀ w ∈ splitWs cs, w ≠ [] ∧ ∀ c ∈ w, pyIsSpace c = false := by
  induction cs using splitWs.induct with
  | case1 => simp [splitWs]
  | case2 c rest hsp ih => simpa [splitWs, hsp] using ih
  | case3 c rest hsp ih =>
    intro w hw
    rw [splitWs] at hw
    simp only [hsp, Bool.false_eq_true, if_false, List.mem_cons] at hw
    rcases hw with rfl | hw
    · refine ⟨by simp, ?_⟩
      intro x hx
      rcases List.mem_cons.1 hx with rfl | hx
      · simpa using hsp
      · have := List.mem_takeWhile_imp hx
        simpa using this
    · exact ih w hw

theorem splitWs_all_space (cs : List Char)
    (h : ∀ c ∈ cs, pyIsSpace c = true) : splitWs cs = [] := by
  induction cs using splitWs.induct with
  | case1 => simp [splitWs]
  | case2 c rest hsp ih =>
    rw [splitWs]
    simp only [hsp, if_true]
    exact ih (fun x hx => h x (List.mem_cons_of_mem c hx))
  | case3 c rest hsp ih =>
    exact absurd (h c (List.mem_cons_self c rest)) (by simpa using hsp)

theorem splitWs_word (w : List Char) (hne : w ≠ [])
    (hw : ∀ c ∈ w, pyIsSpace c = false) : splitWs w = [w] := by
  rcases w with _ | ⟨c, rest⟩
  · exact absurd rfl hne
  · rw [splitWs]
    have hc : pyIsSpace c = false := hw c (List.mem_cons_self c rest)
    simp only [hc, if_false]
    have hall : ∀ x ∈ rest, (fun x => !pyIsSpace x) x = true := by
      intro x hx
      simp [hw x (List.mem_cons_of_mem c hx)]
    rw [List.takeWhile_eq_self_iff.2 hall]
    rw [List.dropWhile_eq_nil_iff.2 hall]
    simp [splitWs]

theorem splitWs_append_space (b : List Char) :
    ∀ a : List Char, splitWs (a ++ '\x20' :: b) = splitWs a ++ splitWs b := by
  intro a
  induction a using splitWs.induct with
  | case1 =>
    simp only [List.nil_append, splitWs]
    norm_num [pyIsSpace]
  | case2 c rest hsp ih =>
    rw [List.cons_append, splitWs, splitWs]
    simp only [hsp, if_true]
    exact ih
  | case3 c rest hsp ih =>
    rw [List.cons_append, splitWs, splitWs]
    simp only [hsp, if_false]
    by_cases hall : ∀ x ∈ rest, (fun x => !pyIsSpace x) x = true
    · have htk : (rest ++ '\x20' :: b).takeWhile (fun x => !pyIsSpace x)
          = rest := by
        rw [List.takeWhile_append_of_pos hall]
        norm_num [List.takeWhile, pyIsSpace]
      have hdw : (rest ++ '\x20' :: b).dropWhile (fun x => !pyIsSpace x)
          = '\x20' :: b := by
        rw [List.dropWhile_append_of_pos hall]
        norm_num [List.dropWhile, pyIsSpace]
      rw [htk, hdw]
      rw [List.takeWhile_eq_self_iff.2 hall]
      rw [List.dropWhile_eq_nil_iff.2 hall]
      rw [splitWs]
      norm_num [pyIsSpace, splitWs]
    · have hne : ¬(rest.dropWhile (fun x => !pyIsSpace x)).isEmpty = true := by
        simpa [List.isEmpty_iff, List.dropWhile_eq_nil_iff] using hall
      have hlen : ¬(rest.takeWhile (fun x => !pyIsSpace x)).length
          = rest.length := by
        intro hl
        exact hall (List.takeWhile_eq_self_iff.1
          ((List.takeWhile_sublist _).eq_of_length hl))
      have htk : (rest ++ '\x20' :: b).takeWhile (fun x => !pyIsSpace x)
          = rest.takeWhile (fun x => !pyIsSpace x) := by
        rw [List.takeWhile_append]
        exact if_neg hlen
      have hdw : (rest ++ '\x20' :: b).dropWhile (fun x => !pyIsSpace x)
          = rest.dropWhile (fun x => !pyIsSpace x) ++ '\x20' :: b := by
        rw [List.dropWhile_append]
        exact if_neg hne
      rw [htk, hdw, ih]
      simp

theorem splitWs_joinSp (ls : List (List Char)) :
    splitWs (joinSp ls) = (ls.map splitWs).flatten := by
  induction ls with
  | nil => simp [joinSp, splitWs]
  | cons l ls ih =>
    rcases ls with _ | ⟨l2, ls⟩
    · simp [joinSp]
    · have hj : joinSp (l :: l2 :: ls) = l ++ '\x20' :: joinSp (l2 :: ls) := rfl
      rw [hj, splitWs_append_space, ih]
      simp

theorem splitWsGo_congr :
    ∀ (fuel1 fuel2 : Nat) (cs : List Char),
      cs.length ≤ fuel1 → cs.length ≤ fuel2 →
      splitWsGo fuel1 cs = splitWsGo fuel2 cs := by
  intro fuel1
  induction fuel1 with
  | zero =>
    intro fuel2 cs h1 _
    have : cs = [] := List.length_eq_zero.1 (Nat.le_zero.1 h1)
    subst this
    cases fuel2 <;> rfl
  | succ fuel1 ih =>
    intro fuel2 cs h1 h2
    rcases cs with _ | ⟨c, rest⟩
    · cases fuel2 <;> rfl
    · rcases fuel2 with _ | fuel2
      · simp at h2
      · rw [splitWsGo, splitWsGo]
        simp only [List.length_cons, Nat.add_le_add_iff_right] at h1 h2
        have hdw : (rest.dropWhile (fun x => !pyIsSpace x)).length ≤
            rest.length := (List.dropWhile_sublist _).length_le
        rcases h : pyIsSpace c with _ | _
        · simp only [Bool.false_eq_true, if_false]
          rw [ih fuel2 (rest.dropWhile (fun x => !pyIsSpace x))
            (le_trans hdw h1) (le_trans hdw h2)]
        · simp only [if_true]
          exact ih fuel2 rest h1 h2

theorem pySplit_eq (cs : List Char) : pySplit cs = splitWs cs := by
  induction cs using splitWs.induct with
  | case1 => rw [splitWs]; rfl
  | case2 c rest hsp ih =>
    rw [splitWs]
    simp only [hsp, if_true]
    rw [pySplit] at ih ⊢
    simp only [List.length_cons, splitWsGo]
    simp only [hsp, if_true]
    exact ih
  | case3 c rest hsp ih =>
    rw [splitWs]
    simp only [hsp, Bool.false_eq_true, if_false]
    rw [pySplit] at ih ⊢
    simp only [List.length_cons, splitWsGo]
    simp only [hsp, Bool.false_eq_true, if_false]
    rw [splitWsGo_congr rest.length
      (rest.dropWhile (fun x => !pyIsSpace x)).length
      (rest.dropWhile (fun x => !pyIsSpace x))
      (List.dropWhile_sublist _).length_le (le_refl _)]
    rw [ih]

theorem wrapAux_flatten (rw : List Char → Nat) (maxW : Nat) :
    ∀ (ws : List (List Char)) (cur : List Char),
      (∀ w ∈ ws, w ≠ [] ∧ ∀ c ∈ w, pyIsSpace c = false) →
      ((wrapAux rw maxW cur ws).map splitWs).flatten = splitWs cur ++ ws := by
  intro ws
  induction ws with
  | nil => intro cur h; simp [wrapAux]
  | cons w ws ih =>
    intro cur h
    have hw := h w (List.mem_cons_self w ws)
    have hws := fun x hx => h x (List.mem_cons_of_mem w hx)
    simp only [wrapAux]
    split
    · rw [ih (cur ++ '\x20' :: w) hws]
      rw [splitWs_append_space, splitWs_word w hw.1 hw.2]
      simp
    · simp only [List.map_cons, List.flatten_cons]
      rw [ih w hws]
      rw [splitWs_word w hw.1 hw.2]
      rfl

theorem wrapAux_width (rw : List Char → Nat) (maxW : Nat)
    (W : List (List Char)) :
    ∀ (ws : List (List Char)) (cur : List Char),
      (text_width rw cur ≤ maxW ∨ cur ∈ W) →
      (∀ w ∈ ws, w ∈ W) →
      ∀ l ∈ wrapAux rw maxW cur ws, text_width rw l ≤ maxW ∨ l ∈ W := by
  intro ws
  induction ws with
  | nil =>
    intro cur hc _ l hl
    rw [wrapAux, List.mem_singleton] at hl
    subst hl
    exact hc
  | cons w ws ih =>
    intro cur hc hws l hl
    have hwmem := hws w (List.mem_cons_self w ws)
    have hws2 := fun x hx => hws x (List.mem_cons_of_mem w hx)
    simp only [wrapAux] at hl
    split at hl
    · exact ih (cur ++ '\x20' :: w) (Or.inl (by assumption)) hws2 l hl
    · rw [List.mem_cons] at hl
      rcases hl with rfl | hl
      · exact hc
      · exact ih w (Or.inr hwmem) hws2 l hl

/-- Claim C3: wrapping splits only at word boundaries — joining the
returned lines with single spaces reproduces the input's word sequence
exactly; every returned line measures within the limit except when it is
a single input word wider than the limit; whitespace-only (in particular
empty) input yields exactly the one-element sequence holding the empty
line. -/
theorem wrap_text_spec :
    ∀ (rw : List Char → Nat) (text : List Char) (maxW : Nat),
      ((∀ c ∈ text, pyIsSpace c = true) → wrap_text rw text maxW = [[]])
      ∧ splitWs (joinSp (wrap_text rw text maxW)) = splitWs text
      ∧ ∀ l ∈ wrap_text rw text maxW,
          text_width rw l ≤ maxW ∨ l ∈ splitWs text := by
  intro rw text maxW
  refine ⟨fun hws => ?_, ?_, ?_⟩
  · rw [wrap_text, pySplit_eq, splitWs_all_space text hws]
  · rcases hs : splitWs text with _ | ⟨w, ws⟩
    · rw [wrap_text, pySplit_eq, hs]
      simp [joinSp, splitWs]
    · rw [wrap_text, pySplit_eq, hs]
      rw [splitWs_joinSp]
      rw [wrapAux_flatten rw maxW ws w
        (fun x hx => splitWs_words text x (hs ▸ List.mem_cons_of_mem w hx))]
      have hw := splitWs_words text w (hs ▸ List.mem_cons_self w ws)
      rw [splitWs_word w hw.1 hw.2]
      rfl
  · intro l hl
    rcases hs : splitWs text with _ | ⟨w, ws⟩
    · rw [wrap_text, pySplit_eq, hs, List.mem_singleton] at hl
      subst hl
      left
      simp [text_width]
    · rw [wrap_text, pySplit_eq, hs] at hl
      exact wrapAux_width rw maxW (w :: ws) ws w
        (Or.inr (List.mem_cons_self w ws))
        (fun x hx => List.mem_cons_of_mem w hx) l hl

/-- Witness for C3 at a concrete width function, text and limit. -/
theorem wrap_text_spec_witness :
    wrap_text List.length "\x20".toList 7 = [[]]
    ∧ splitWs (joinSp (wrap_text List.length "only two words".toList 7))
        = splitWs "only two words".toList :=
  ⟨(wrap_text_spec List.length "\x20".toList 7).1 (by decide),
   (wrap_text_spec List.length "only two words".toList 7).2.1⟩

/-! ## Claim C8: the fitting search is a bounded first-fit scan -/

theorem chooseSizesLoop_eq_find (fits : Nat × Nat × Nat → Bool) :
    ∀ l : List (Nat × Nat × Nat), chooseSizesLoop fits l = l.find? fits := by
  intro l
  induction l with
  | nil => rfl
  | cons c rest ih =>
    rw [chooseSizesLoop, List.find?]
    rcases h : fits c with _ | _ <;> simp [h, ih]

/-- Claim C8: the fitting search evaluates the fixed finite candidate
list, whose sizes are strictly decreasing from the largest; it returns
the first candidate whose computed content height fits under
IMG_H - MARGIN_BOTTOM, and when no candidate fits it stops at and accepts
the minimum sizes (36, 28, 24), the last entry of the list — a hard stop,
not a guarantee of fit. -/
theorem fitting_search_first_fit :
    ∀ fits : Nat × Nat × Nat → Bool,
      chooseSizes fits = (sizeCandidates.find? fits).getD (36, 28, 24)
      ∧ ((∀ c ∈ sizeCandidates, fits c = false) →
          chooseSizes fits = (36, 28, 24))
      ∧ (∀ c, sizeCandidates.find? fits = some c →
          fits c = true ∧ c ∈ sizeCandidates)
      ∧ List.Chain'
          (fun a b : Nat × Nat × Nat =>
            b.1 < a.1 ∧ b.2.1 < a.2.1 ∧ b.2.2 < a.2.2) sizeCandidates
      ∧ sizeCandidates.getLast? = some (36, 28, 24)
      ∧ (∀ boldF regF title secs logoH,
          chooseFonts boldF regF title secs logoH =
            (boldF (chooseSizes (fitsSizes boldF regF title secs logoH)).1,
             boldF (chooseSizes (fitsSizes boldF regF title secs logoH)).2.1,
             regF (chooseSizes (fitsSizes boldF regF title secs logoH)).2.2)) := by
  intro fits
  refine ⟨?_, fun hnone => ?_, fun c hc => ?_,
    by norm_num [sizeCandidates, List.chain'_cons, List.chain'_singleton],
    by decide, fun boldF regF title secs logoH => rfl⟩
  · rw [chooseSizes, chooseSizesLoop_eq_find]
    rcases h : sizeCandidates.find? fits with _ | c <;> simp
  · rw [chooseSizes, chooseSizesLoop_eq_find]
    have : sizeCandidates.find? fits = none := by
      rw [List.find?_eq_none]
      intro x hx
      simp [hnone x hx]
    rw [this]
  · exact ⟨List.find?_some hc, List.mem_of_find?_eq_some hc⟩

/-- Witness for C8: a fit test that rejects every candidate makes the
search stop at the floor sizes. -/
theorem fitting_search_first_fit_witness :
    chooseSizes (fun _ => false) = (36, 28, 24) :=
  (fitting_search_first_fit (fun _ => false)).2.1 (by decide)

/-! ## Claim C9: the fitting computation is deterministic -/

theorem fitstep_not_final {fits : Nat × Nat × Nat → Bool}
    {s t : FitState} (h : FitStep fits s t) : ¬ FitFinal s := by
  cases h with
  | found c rest hc => rintro (h | h) <;> simp [FitFinal] at h
  | skip c rest hc => rintro (h | h) <;> simp [FitFinal] at h

theorem fitstep_det {fits : Nat × Nat × Nat → Bool} :
    ∀ {s t u : FitState}, FitStep fits s t → FitStep fits s u → t = u := by
  intro s t u h1 h2
  cases h1 with
  | found c rest hc =>
    cases h2 with
    | found c2 rest2 hc2 => rfl
    | skip c2 rest2 hc2 => rw [hc] at hc2; exact Bool.noConfusion hc2
  | skip c rest hc =>
    cases h2 with
    | found c2 rest2 hc2 => rw [hc] at hc2; exact Bool.noConfusion hc2
    | skip c2 rest2 hc2 => rfl

theorem fit_reaches_final_unique {fits : Nat × Nat × Nat → Bool}
    {s t : FitState} (h1 : Relation.ReflTransGen (FitStep fits) s t)
    (hft : FitFinal t) :
    ∀ u, Relation.ReflTransGen (FitStep fits) s u → FitFinal u → t = u := by
  induction h1 using Relation.ReflTransGen.head_induction_on with
  | refl =>
    intro u hu hfu
    rcases Relation.ReflTransGen.cases_head hu with rfl | ⟨m, hm, _⟩
    · rfl
    · exact absurd hft (fitstep_not_final hm)
  | head hstep htail ih =>
    intro u hu hfu
    rcases Relation.ReflTransGen.cases_head hu with rfl | ⟨m, hm, hmu⟩
    · exact absurd hfu (fitstep_not_final hstep)
    · rw [fitstep_det hstep hm] at htail ih
      exact ih u hmu hfu

theorem runFit_reaches (fits : Nat × Nat × Nat → Bool) :
    ∀ cs : List (Nat × Nat × Nat),
      Relation.ReflTransGen (FitStep fits) (cs, none) (runFit fits cs)
      ∧ FitFinal (runFit fits cs) := by
  intro cs
  induction cs with
  | nil => exact ⟨Relation.ReflTransGen.refl, Or.inr rfl⟩
  | cons c rest ih =>
    rcases h : fits c with _ | _
    · rw [runFit]
      simp only [h, if_false]
      exact ⟨Relation.ReflTransGen.head (FitStep.skip c rest h) ih.1, ih.2⟩
    · rw [runFit]
      simp only [h, if_true]
      exact ⟨Relation.ReflTransGen.single (FitStep.found c rest h),
        Or.inl rfl⟩

theorem fitOutcome_runFit (fits : Nat × Nat × Nat → Bool) :
    ∀ cs : List (Nat × Nat × Nat),
      fitOutcome (runFit fits cs) =
        match chooseSizesLoop fits cs with
        | some c => c
        | none => (36, 28, 24) := by
  intro cs
  induction cs with
  | nil => rfl
  | cons c rest ih =>
    rw [runFit, chooseSizesLoop]
    rcases h : fits c with _ | _
    · exact ih
    · rfl

/-- Claim C9: the fitting computation is deterministic — each loop state
has at most one successor, any two complete runs from the same start
state stop in the same final state, and the unique final state of the
loop run over the candidate list yields exactly the sizes `chooseSizes`
computes, so two runs on identical inputs pick identical fonts and
heights. -/
theorem fitting_deterministic :
    ∀ fits : Nat × Nat × Nat → Bool,
      (∀ s t u : FitState, FitStep fits s t → FitStep fits s u → t = u)
      ∧ (∀ s t u : FitState,
          Relation.ReflTransGen (FitStep fits) s t → FitFinal t →
          Relation.ReflTransGen (FitStep fits) s u → FitFinal u → t = u)
      ∧ (∀ cs : List (Nat × Nat × Nat),
          Relation.ReflTransGen (FitStep fits) (cs, none) (runFit fits cs)
          ∧ FitFinal (runFit fits cs))
      ∧ fitOutcome (runFit fits sizeCandidates) = chooseSizes fits := by
  intro fits
  refine ⟨fun s t u h1 h2 => fitstep_det h1 h2,
    fun s t u h1 hf1 h2 hf2 => fit_reaches_final_unique h1 hf1 u h2 hf2,
    runFit_reaches fits, ?_⟩
  rw [fitOutcome_runFit, chooseSizes]

/-- Witness for C9: with a fit test accepting everything, the two
single-step runs from the initial candidate list stop in the same final
state. -/
theorem fitting_deterministic_witness :
    (([], some (56, 40, 32)) : FitState) = (([], some (56, 40, 32)) : FitState) :=
  (fitting_deterministic (fun _ => true)).2.1 (sizeCandidates, none) _ _
    (Relation.ReflTransGen.single
      (FitStep.found (56, 40, 32) [(48, 36, 28), (42, 32, 26), (36, 28, 24)] rfl))
    (Or.inl rfl)
    (Relation.ReflTransGen.single
      (FitStep.found (56, 40, 32) [(48, 36, 28), (42, 32, 26), (36, 28, 24)] rfl))
    (Or.inl rfl)

/-! ## Claim C4: out-of-bounds drawing -/

theorem drawTitleLines_kind (f : Font) :
    ∀ (ls : List (List Char)) (y : Int),
      ∀ d ∈ (drawTitleLines f y ls).1, d.kind = DrawKind.title := by
  intro ls
  induction ls with
  | nil => intro y d hd; simp [drawTitleLines] at hd
  | cons l ls ih =>
    intro y d hd
    rw [drawTitleLines] at hd
    simp only [List.mem_cons] at hd
    rcases hd with rfl | hd
    · rfl
    · exact ih (y + f.lineH + 8) d hd

theorem drawHeadingLines_bound (f : Font) :
    ∀ (ls : List (List Char)) (y : Int),
      ∀ d ∈ (drawHeadingLines f y ls).1,
        d.kind = DrawKind.heading ∧ d.y ≤ (IMG_H : Int) - MARGIN_BOTTOM := by
  intro ls
  induction ls with
  | nil => intro y d hd; simp [drawHeadingLines] at hd
  | cons l ls ih =>
    intro y d hd
    rw [drawHeadingLines] at hd
    split at hd
    · simp at hd
    · rename_i hy
      simp only [List.mem_cons] at hd
      rcases hd with rfl | hd
      · exact ⟨rfl, by dsimp only; omega⟩
      · exact ih (y + f.lineH + 6) d hd

theorem drawWrapped_bound (f : Font) :
    ∀ (ls : List (List Char)) (y : Int),
      ∀ d ∈ (drawWrapped f y ls).1,
        d.kind = DrawKind.body
        ∧ d.y + f.lineH ≤ (IMG_H : Int) - MARGIN_BOTTOM := by
  intro ls
  induction ls with
  | nil => intro y d hd; simp [drawWrapped] at hd
  | cons l ls ih =>
    intro y d hd
    rw [drawWrapped] at hd
    split at hd
    · simp at hd
    · rename_i hy
      simp only [List.mem_cons] at hd
      rcases hd with rfl | hd
      · exact ⟨rfl, by dsimp only; omega⟩
      · exact ih (y + f.lineH + 6) d hd

theorem drawBodyTexts_bound (f : Font) :
    ∀ (ts : List String) (y : Int),
      ∀ d ∈ (drawBodyTexts f y ts).1,
        d.kind = DrawKind.body
        ∧ d.y + f.lineH ≤ (IMG_H : Int) - MARGIN_BOTTOM := by
  intro ts
  induction ts with
  | nil => intro y d hd; simp [drawBodyTexts] at hd
  | cons t ts ih =>
    intro y d hd
    rw [drawBodyTexts] at hd
    split at hd
    · exact drawWrapped_bound f _ y d hd
    · simp only [List.mem_append] at hd
      rcases hd with hd | hd
      · exact drawWrapped_bound f _ y d hd
      · exact ih _ d hd

theorem drawSections_bound (sf bf : Font) :
    ∀ (secs : List PSec) (y : Int),
      ∀ d ∈ drawSections sf bf y secs,
        (d.kind = DrawKind.heading → d.y ≤ (IMG_H : Int) - MARGIN_BOTTOM)
        ∧ (d.kind = DrawKind.body →
            d.y + bf.lineH ≤ (IMG_H : Int) - MARGIN_BOTTOM) := by
  intro secs
  induction secs with
  | nil => intro y d hd; simp [drawSections] at hd
  | cons sec secs ih =>
    intro y d hd
    rw [drawSections] at hd
    have hhd := drawHeadingLines_bound sf
      (wrap_text sf.width sec.heading.toList maxTextWidth) y
    have hbd := drawBodyTexts_bound bf sec.lines
      ((drawHeadingLines sf y
        (wrap_text sf.width sec.heading.toList maxTextWidth)).2 + 6)
    split at hd
    · rcases List.mem_append.1 hd with h | h
      · exact ⟨fun _ => (hhd d h).2, fun hk => absurd ((hhd d h).1 ▸ hk)
          (by simp)⟩
      · exact ⟨fun hk => absurd ((hbd d h).1 ▸ hk) (by simp),
          fun _ => (hbd d h).2⟩
    · rcases List.mem_append.1 hd with h | h
      · rcases List.mem_append.1 h with h2 | h2
        · exact ⟨fun _ => (hhd d h2).2, fun hk => absurd ((hhd d h2).1 ▸ hk)
            (by simp)⟩
        · exact ⟨fun hk => absurd ((hbd d h2).1 ▸ hk) (by simp),
            fun _ => (hbd d h2).2⟩
      · exact ih _ d h

/-- Claim C4 amended: heading and body draw instructions are clipped —
a heading line is drawn only at y at most IMG_H - MARGIN_BOTTOM and a
body line only where it also leaves room for its own line height — and
the canvas is never resized; but title lines are drawn with no bound
check at all, so a long title may produce draw instructions beyond the
bottom margin. -/
theorem renderer_clips_heading_and_body :
    (∀ (tf sf bf : Font) (logoH : Nat) (title : List Char) (secs : List PSec),
      ∀ d ∈ renderDraws tf sf bf logoH title secs,
        (d.kind = DrawKind.heading → d.y ≤ (IMG_H : Int) - MARGIN_BOTTOM)
        ∧ (d.kind = DrawKind.body →
            d.y + bf.lineH ≤ (IMG_H : Int) - MARGIN_BOTTOM))
    ∧ (∀ (boldF regF : Nat → Font) (logoH : Nat) (title : List Char)
        (secs : List PSec),
      ∀ d ∈ render_post_image boldF regF logoH title secs,
        (d.kind = DrawKind.heading → d.y ≤ (IMG_H : Int) - MARGIN_BOTTOM)
        ∧ (d.kind = DrawKind.body → d.y ≤ (IMG_H : Int) - MARGIN_BOTTOM)) := by
  have main : ∀ (tf sf bf : Font) (logoH : Nat) (title : List Char)
      (secs : List PSec),
      ∀ d ∈ renderDraws tf sf bf logoH title secs,
        (d.kind = DrawKind.heading → d.y ≤ (IMG_H : Int) - MARGIN_BOTTOM)
        ∧ (d.kind = DrawKind.body →
            d.y + bf.lineH ≤ (IMG_H : Int) - MARGIN_BOTTOM) := by
    intro tf sf bf logoH title secs d hd
    rw [renderDraws] at hd
    rcases List.mem_append.1 hd with h | h
    · have := drawTitleLines_kind tf _ _ d h
      exact ⟨fun hk => absurd (this ▸ hk) (by simp),
        fun hk => absurd (this ▸ hk) (by simp)⟩
    · exact drawSections_bound sf bf secs _ d h
  refine ⟨main, fun boldF regF logoH title secs d hd => ?_⟩
  have h := main (chooseFonts boldF regF title secs logoH).1
    (chooseFonts boldF regF title secs logoH).2.1
    (chooseFonts boldF regF title secs logoH).2.2 logoH title secs d hd
  have hnn : (0 : Int) ≤
      ((chooseFonts boldF regF title secs logoH).2.2.lineH : Int) := by
    exact_mod_cast Nat.zero_le _
  exact ⟨h.1, fun hk => by have := h.2 hk; omega⟩

/-- Claim C4 as stated is false: with content that does not fit even at
the smallest candidate sizes, the renderer still draws every wrapped
title line unconditionally, issuing a draw instruction whose y coordinate
lies beyond the canvas bottom margin. -/
theorem renderer_title_beyond_margin_counterexample :
    IMG_H - MARGIN_BOTTOM <
      calculate_content_height (exBold 36) (exBold 28) (exReg 24) exTitle [] 0
    ∧ ((render_post_image exBold exReg 0 exTitle []).any fun d =>
        decide ((IMG_H : Int) - MARGIN_BOTTOM < d.y)) = true := by
  constructor
  · decide
  · decide

/-- Witness for C4 (amended): a concrete render containing a heading draw
instruction, which the theorem bounds by the bottom margin. -/
theorem renderer_clips_heading_and_body_witness :
    (Draw.mk 99 "Hi".toList DrawKind.heading).y ≤ (IMG_H : Int) - MARGIN_BOTTOM
    ∧ (Draw.mk 99 "Hi".toList DrawKind.heading).kind = DrawKind.heading :=
  ⟨(renderer_clips_heading_and_body.1 (Font.mk (fun _ => 0) 1)
      (Font.mk (fun _ => 0) 1) (Font.mk (fun _ => 0) 1) 0 []
      [PSec.mk "Hi" []] (Draw.mk 99 "Hi".toList DrawKind.heading)
      (by decide)).1 rfl,
   rfl⟩
